import Mathlib

/-!
# Verification of the craigslist_scraper core pipeline

Shallow embedding of the core components of the `craigslist_scraper`
package (`utils.py`, `cl_scraper.py`, `cl_job_scraper.py`):

* `retry` / `prompt` from `utils.py`;
* `get_next_csv_filename` and the `csv_out` chunked-writer decorator from
  `cl_scraper.py`;
* the `scrape_jobs` pagination loop and `scrape_single_job_details` /
  `scrape_job_details` from `cl_job_scraper.py`.

Python side effects are made explicit: the filesystem is a list of
existing filenames, interactive input is a list of operator answers,
log output is a list of message strings, HTTP fetching is a function
from the request offset (or endpoint) to a parse outcome.  `time.sleep`
has no observable effect and is dropped.  Unbounded `while` loops are
given explicit fuel; theorems show the fuel bounds under which the loops
terminate as the code does.
-/

namespace ClScraper

/-! ## utils.py: `retry`

```python
def retry(partial, sleep, max_retries=5):
    i = 0
    while i < max_retries:
        i += 1
        try:
            return partial()
        except Exception:
            if i == max_retries:
                raise
            time.sleep(sleep)
```

The wrapped zero-argument operation is modelled as a function from the
attempt number (1-based) to an `Except` outcome, so that distinct
attempts may fail or succeed independently.  Falling out of the loop
(only possible when `max_retries = 0`) returns Python `None`, modelled
as `none`; fuel equals `max_retries`, which bounds the iteration count
of the `while` loop exactly. -/

/-- One `while` iteration of `retry`: `i` is the pre-increment loop
counter, so the attempt performed is `op (i+1)`; on the final attempt's
failure the exception is re-raised unchanged. -/

def retryAux {E A : Type} (op : Nat → Except E A) (maxRetries : Nat) :
    Nat → Nat → Option (Except E A)
  | _, 0 => none
  | i, fuel+1 =>
    if i < maxRetries then
      match op (i + 1) with
      | Except.ok a => some (Except.ok a)
      | Except.error e =>
        if i + 1 = maxRetries then some (Except.error e)
        else retryAux op maxRetries (i + 1) fuel
    else none

/-- Translation of `retry(partial, sleep, max_retries)` from `utils.py`. -/

def retryWith {E A : Type} (op : Nat → Except E A) (maxRetries : Nat) :
    Option (Except E A) :=
  retryAux op maxRetries 0 maxRetries

/-- Translation of `retry` with the default budget `max_retries=5`. -/

def retry {E A : Type} (op : Nat → Except E A) : Option (Except E A) :=
  retryWith op 5

/-! ## utils.py: `prompt`

```python
def prompt(message, options=None):
    ret = ""
    ...
    while not ret or (options and ret not in options):
        ret = raw_input(query)
    return ret
```

The operator's successive answers are a list of strings; `prompt`
returns the first answer that is non-empty and (when options are given)
among the options.  If the supplied answers are exhausted the loop is
still waiting for input, modelled as `none`. -/

def prompt (options : List String) : List String → Option String
  | [] => none
  | ans :: rest =>
    if ans ≠ "" ∧ (options = [] ∨ ans ∈ options) then some ans
    else prompt options rest

/-! ## Decimal formatting

`cl_scraper.py` builds filenames with `"{}{}.csv".format(root, index)`,
where the index is formatted in decimal (`Nat.repr` in Lean).  The
lemmas below establish that `Nat.repr` is injective, which is what makes
the generated filenames collision-free. -/

/-- Most-significant-first decimal digits of `n` (`[]` for `0`). -/

def natDigs (n : Nat) : List Char :=
  if h : n = 0 then []
  else natDigs (n / 10) ++ [Nat.digitChar (n % 10)]
termination_by n
decreasing_by exact Nat.div_lt_self (Nat.pos_of_ne_zero h) (by omega)

/-- Decimal value of a most-significant-first digit string. -/

def decDigs (l : List Char) : Nat :=
  l.foldl (fun a c => 10 * a + (c.toNat - 48)) 0

/-! ## cl_scraper.py: `get_next_csv_filename`

```python
def get_next_csv_filename(root_filename, last_index=0, is_interactive=False):
    if last_index == 0:
        file_index = ""
    else:
        file_index = last_index + 1
    filename = "{}{}.csv".format(root_filename, file_index)
    filename_path = os.path.join(CSV_DIR, filename)
    if os.path.exists(filename_path):
        if last_index == 0 and is_interactive:
            res = prompt("... Continue?", ("y", "N"))
            if res == "N":
                raise IntensiveOpException(ex_msg)
        return get_next_csv_filename(root_filename, file_index or 1, is_interactive)
    else:
        return filename_path
```

The CSV directory is a list of existing filenames (`fs`); the constant
`CSV_DIR` prefix is common to every path and is dropped.  The operator's
answer to the overwrite prompt (always one of `"y"`/`"N"`, as guaranteed
by `prompt` with those options) is the `answer` argument.  The recursion
is given explicit fuel; an `IntensiveOpException` is the `Except.error`
outcome. -/

/-- The filename `"{}{}.csv".format(root, file_index)` built from
`last_index` (`file_index` is the empty string when `last_index == 0`,
otherwise `last_index + 1`). -/

def mkCsvFilename (root : String) (lastIndex : Nat) : String :=
  root ++ (if lastIndex = 0 then "" else Nat.repr (lastIndex + 1)) ++ ".csv"

/-- Translation of `get_next_csv_filename`; `none` means the recursion fuel ran out. -/

def getNextCsvFilename (root : String) (isInteractive : Bool) (answer : String)
    (fs : List String) : Nat → Nat → Option (Except Unit String)
  | 0, _ => none
  | fuel + 1, lastIndex =>
    let filename := mkCsvFilename root lastIndex
    if filename ∈ fs then
      if lastIndex = 0 ∧ isInteractive = true ∧ answer = "N" then
        some (Except.error ())
      else
        getNextCsvFilename root isInteractive answer fs fuel
          (if lastIndex = 0 then 1 else lastIndex + 1)
    else
      some (Except.ok filename)

/-! ## cl_scraper.py: the `csv_out` decorator

```python
def csv_out(root_filename, header, rows_per_file=MAX_CSV_ROWS):
    def csv_out_decorator(method):
        def wrapper(self, *args, **kwargs):
            def save_rows(rows, filename):
                ...
                with open(filename, "wb") as csv_file:
                    csv_writer.writerow(header)
                    for row in rows:
                        if row is None:
                            break
                        csv_writer.writerow(row)
            filename = None
            file_index = 0
            rows_counter = 0
            empty_rows = [None for i in xrange(rows_per_file)]
            rows = empty_rows[:]
            try:
                filename = get_next_csv_filename(root_filename, file_index, self.is_interactive)
                file_index += 1
                for row in method(self, *args, **kwargs):
                    rows[rows_counter] = row
                    rows_counter += 1
                    if rows_counter % rows_per_file == 0:
                        save_rows(rows, filename)
                        filename = get_next_csv_filename(root_filename, file_index, self.is_interactive)
                        file_index += 1
                        rows = empty_rows[:]
                        rows_counter = 0
            except IntensiveOpException:
                logger.info("Skipping an intensive operation")
                rows_counter = 0
            finally:
                if rows_counter:
                    save_rows(rows, filename)
        return wrapper
    return csv_out_decorator
```

A flushed batch is recorded as the pair of its filename and the data
rows written after the fixed header row.  The wrapped generator is a
`GenRun`: the rows it yields, plus whether it terminates by raising an
exception after its last yield; `CsvOutcome.raised` marks that the
exception propagates out of the wrapper after the `finally` flush. -/

/-- The constant `MAX_CSV_ROWS`, the default buffer capacity. -/

def MAX_CSV_ROWS : Nat := 1000

inductive CsvOutcome
  /-- the wrapper returns normally -/
  | ok
  /-- the generator's exception propagates out of the wrapper -/
  | raised
deriving DecidableEq

/-- The wrapped generator: the records it yields, in order, and whether
it ends by raising an exception (after its last yield). -/

structure GenRun (Row : Type) where
  yielded : List Row
  raises : Bool

/-- The observable effect of one `csv_out`-wrapped call: the batches
flushed (filename and data rows, in flush order) and how control left
the wrapper. -/

structure CsvOutResult (Row : Type) where
  batches : List (String × List Row)
  outcome : CsvOutcome
deriving DecidableEq

/-- Translation of `save_rows`: the data rows written to one file — the buffer's
prefix up to the first `None` sentinel. -/

def saveRows {Row : Type} : List (Option Row) → List Row
  | [] => []
  | none :: _ => []
  | some r :: rest => r :: saveRows rest

/-- The `for row in method(...)` loop of `wrapper`, plus the
`except IntensiveOpException` / `finally` epilogue.  Arguments after
the generator state: the filesystem, `file_index`, the current
`filename`, the row buffer, `rows_counter`, and the batches flushed so
far.  `fuel` bounds each `get_next_csv_filename` recursion. -/

def csvOutGo {Row : Type} (C : Nat) (root : String) (isInteractive : Bool)
    (answer : String) (fuel : Nat) :
    List Row → Bool → List String → Nat → String →
      List (Option Row) → Nat → List (String × List Row) →
      Option (CsvOutResult Row)
  | [], raises, _fs, _fi, fn, buf, cnt, acc =>
    some ⟨if cnt ≠ 0 then acc ++ [(fn, saveRows buf)] else acc,
          if raises then CsvOutcome.raised else CsvOutcome.ok⟩
  | r :: rest, raises, fs, fi, fn, buf, cnt, acc =>
    let buf2 := buf.set cnt (some r)
    let cnt2 := cnt + 1
    if cnt2 % C = 0 then
      let fs2 := fn :: fs
      match getNextCsvFilename root isInteractive answer fs2 fuel fi with
      | none => none
      | some (Except.error _) =>
        some ⟨acc ++ [(fn, saveRows buf2)], CsvOutcome.ok⟩
      | some (Except.ok fn2) =>
        csvOutGo C root isInteractive answer fuel rest raises fs2 (fi + 1) fn2
          (List.replicate C none) 0 (acc ++ [(fn, saveRows buf2)])
    else
      csvOutGo C root isInteractive answer fuel rest raises fs fi fn buf2 cnt2 acc

/-- One `csv_out`-wrapped call of a generator `run`, starting from
filesystem `fs`. -/

def csvOutWrapper (Row : Type) (C : Nat) (root : String) (isInteractive : Bool)
    (answer : String) (fuel : Nat) (fs : List String) (run : GenRun Row) :
    Option (CsvOutResult Row) :=
  match getNextCsvFilename root isInteractive answer fs fuel 0 with
  | none => none
  | some (Except.error _) => some ⟨[], CsvOutcome.ok⟩
  | some (Except.ok fn) =>
    csvOutGo C root isInteractive answer fuel run.yielded run.raises fs 1 fn
      (List.replicate C none) 0 []

/-! ### The writer's output, characterised

`namedChunks root C k l` is the list of batches a run flushes for the
record stream `l` once the buffer state reaches filename index `k`:
successive capacity-`C` chunks of `l`, the `j`-th carrying the filename
built from index `k + j`. -/

def namedChunks {Row : Type} (root : String) (C : Nat) :
    Nat → List Row → List (String × List Row)
  | _, [] => []
  | k, a :: rest =>
    if h : C = 0 then []
    else (mkCsvFilename root k, (a :: rest).take C) ::
      namedChunks root C (k + 1) ((a :: rest).drop C)
termination_by _ l => l.length
decreasing_by
  simp only [List.length_drop, List.length_cons]
  omega

/-! ## cl_job_scraper.py: the `scrape_jobs` pagination loop

```python
payload = {"employment_type": "1", "s": 1}
res = retry(functools.partial(requests.get, endpoint, params=payload), SLEEP_TIME)
while True:
    try:
        doc = html.fromstring(res.text)
        listings = doc.xpath(JOB_XPATH)
        if not listings:
            break
        for listing in listings:
            if listing.find(MAP_TAG_XPATH) is not None:
                anchor_elem = listing.find(JOB_LINK_XPATH)
                link = "{}{}".format(domain, anchor_elem.get("href")[1:])
                yield link,
    except Exception:
        logger.exception("Encountered an issue while scraping jobs", ...)
    finally:
        if len(listings) < MAX_RESULTS:
            break
        payload["s"] += MAX_RESULTS
        time.sleep(SLEEP_TIME)
        res = retry(functools.partial(requests.get, endpoint, params=payload), SLEEP_TIME)
```

The remote is a function from the offset parameter `s` to the outcome of
fetching-and-parsing that page: `Except.error` when `html.fromstring` /
`doc.xpath` raises, `Except.ok listings` otherwise.  A listing records
whether it has a map tag and its job-link `href`.  Pagination state per
iteration: the current offset `s` and the Python variable `listings`
(`none` before its first assignment — reading it then is a `NameError`,
which escapes the generator).  The run records the yielded links, the
offsets fetched (in order), and how the loop ended.  `fuel` bounds the
number of `while` iterations. -/

/-- The constant `MAX_RESULTS`, the page size of a Craigslist result page. -/

def MAX_RESULTS : Nat := 100

/-- One `p.row` listing element: whether it has a `maptag` span, and its
`hdrlnk` anchor's `href` attribute. -/

structure Listing where
  hasMapTag : Bool
  href : String
deriving DecidableEq

inductive LoopOutcome
  /-- the loop hit a `break` (short or empty page) -/
  | exhausted
  /-- `len(listings)` evaluated before `listings` was ever assigned -/
  | nameError
deriving DecidableEq

/-- The observable behaviour of one `scrape_jobs` run: links yielded in
order, offsets fetched in order, and how the loop ended. -/

structure JobsRun where
  links : List String
  offsets : List Nat
  outcome : LoopOutcome
deriving DecidableEq

/-- The `for listing in listings` body: a link is yielded only for
listings with a map tag; the leading slash of `href` is sliced off and
the domain prepended. -/

def extractLinks (domain : String) (listings : List Listing) : List String :=
  listings.filterMap fun l =>
    if l.hasMapTag then some (domain ++ l.href.drop 1) else none

/-- The `while True` loop of `scrape_jobs`.  Arguments: fuel, the
current offset `s`, and the last value assigned to the Python variable
`listings` (`none` if never assigned). -/

def scrapeJobsLoop (remote : Nat → Except Unit (List Listing)) (domain : String) :
    Nat → Nat → Option (List Listing) → Option JobsRun
  | 0, _, _ => none
  | fuel + 1, s, prevListings =>
    match remote s with
    | Except.ok listings =>
      if listings.length = 0 then some ⟨[], [s], LoopOutcome.exhausted⟩
      else
        let links := extractLinks domain listings
        if listings.length < MAX_RESULTS then
          some ⟨links, [s], LoopOutcome.exhausted⟩
        else
          (scrapeJobsLoop remote domain fuel (s + MAX_RESULTS) (some listings)).map
            fun run => ⟨links ++ run.links, s :: run.offsets, run.outcome⟩
    | Except.error _ =>
      match prevListings with
      | none => some ⟨[], [s], LoopOutcome.nameError⟩
      | some pl =>
        if pl.length < MAX_RESULTS then some ⟨[], [s], LoopOutcome.exhausted⟩
        else
          (scrapeJobsLoop remote domain fuel (s + MAX_RESULTS) (some pl)).map
            fun run => ⟨run.links, s :: run.offsets, run.outcome⟩

/-- A full `scrape_jobs` generator run: `payload["s"]` starts at `1`,
`listings` is not yet assigned. -/

def scrapeJobs (remote : Nat → Except Unit (List Listing)) (domain : String)
    (fuel : Nat) : Option JobsRun :=
  scrapeJobsLoop remote domain fuel 1 none

/-- A remote serving a fixed page sequence: the page at offset `s` is
page number `(s - 1) / MAX_RESULTS` of the sequence, and every parse
succeeds. -/

def remoteOfPages (pages : List (List Listing)) :
    Nat → Except Unit (List Listing) :=
  fun s => Except.ok (pages.getD ((s - 1) / MAX_RESULTS) [])

/-! ## cl_job_scraper.py: `scrape_single_job_details` / `scrape_job_details`

```python
def scrape_single_job_details(self, endpoint):
    title = company = latitude = longitude = None
    try:
        logger.debug("Hitting single job endpoint %s", endpoint)
        res = retry(functools.partial(requests.get, endpoint), SLEEP_TIME)
        doc = html.fromstring(res.text)
        title_elem = doc.find(TITLE_XPATH)
        if title_elem is not None:
            title = title_elem.text
        else:
            raise MissingDataException("Title is missing from job listing")
        company = "A Company That's Hiring"
        map_elem = doc.find(MAP_XPATH)
        if map_elem is not None:
            latitude = map_elem.get("data-latitude")
            longitude = map_elem.get("data-longitude")
        else:
            raise MissingDataException("Map coordinates are missing from job listing")
        return title, company, latitude, longitude
    except MissingDataException: # raises are for failing fast
        pass
    except Exception:
        logger.exception("Encountered an issue while scraping single job details", ...)
```

A fetched-and-parsed job page records whether the title element is
present (and its text, which lxml reports as `Option`) and whether the
map element is present (with its two data attributes).  A fetch whose
retries are exhausted is the `Except.error` case, reaching the generic
`except Exception` handler.  The returned value is `none` when the
function falls through without a `return` (both handlers), and the log
trace lists the messages emitted during the call. -/

/-- The remote of the C7 counterexample: offset 1 parses to a full page,
offset 101 raises during extraction, offset 201 parses to a short
page. -/

def c7Remote : Nat → Except Unit (List Listing) :=
  fun s =>
    if s = 1 then Except.ok (List.replicate 100 ⟨true, "/a"⟩)
    else if s = 101 then Except.error ()
    else Except.ok [⟨true, "/c"⟩]

theorem digitChar_toNat (m : Nat) (hm : m < 10) :
    (Nat.digitChar m).toNat = 48 + m := by
  interval_cases m <;> rfl

theorem decDigs_step (l : List Char) (c : Char) :
    decDigs (l ++ [c]) = 10 * decDigs l + (c.toNat - 48) := by
  simp [decDigs, List.foldl_append]

theorem decDigs_natDigs (n : Nat) : decDigs (natDigs n) = n := by
  induction n using Nat.strong_induction_on with
  | _ n ih =>
    by_cases h : n = 0
    · subst h; simp [natDigs, decDigs]
    · rw [natDigs]
      rw [dif_neg h, decDigs_step, ih (n / 10) (Nat.div_lt_self (Nat.pos_of_ne_zero h) (by omega)),
        digitChar_toNat (n % 10) (Nat.mod_lt n (by omega))]
      omega

theorem natDigs_injective : Function.Injective natDigs := by
  intro a b h
  have := congrArg decDigs h
  rwa [decDigs_natDigs, decDigs_natDigs] at this

theorem toDigitsCore_eq_natDigs (fuel : Nat) :
    ∀ n ds, n ≠ 0 → n < 10 ^ fuel →
      Nat.toDigitsCore 10 fuel n ds = natDigs n ++ ds := by
  induction fuel with
  | zero => intro n ds h0 hlt; omega
  | succ fuel ih =>
    intro n ds h0 hlt
    simp only [Nat.toDigitsCore]
    by_cases hq : n / 10 = 0
    · rw [if_pos hq, natDigs, dif_neg h0, hq, natDigs]
      simp
    · rw [if_neg hq, ih (n / 10) _ hq (by
        have h10 : (0:Nat) < 10 := by omega
        rw [Nat.div_lt_iff_lt_mul h10]
        calc n < 10 ^ (fuel + 1) := hlt
          _ = 10 ^ fuel * 10 := by rw [pow_succ])]
      conv_rhs => rw [natDigs]
      rw [dif_neg h0]
      simp

theorem repr_eq_natDigs (n : Nat) (h : n ≠ 0) :
    Nat.repr n = (natDigs n).asString := by
  have hlt : n < 10 ^ (n + 1) := by
    calc n < 10 ^ n := Nat.lt_pow_self (by omega) n
      _ ≤ 10 ^ (n + 1) := Nat.pow_le_pow_right (by omega) (by omega)
  rw [Nat.repr, Nat.toDigits, toDigitsCore_eq_natDigs (n + 1) n [] h hlt]
  simp

theorem asString_injective : Function.Injective List.asString := by
  intro a b h
  have := congrArg String.data h
  simpa [List.asString] using this

theorem repr_injective : Function.Injective Nat.repr := by
  intro a b h
  by_cases ha : a = 0 <;> by_cases hb : b = 0
  · omega
  · exfalso
    rw [ha, repr_eq_natDigs b hb] at h
    have hd : ['0'] = natDigs b := asString_injective h
    have := congrArg decDigs hd
    rw [decDigs_natDigs] at this
    simp [decDigs] at this
    omega
  · exfalso
    rw [hb, repr_eq_natDigs a ha] at h
    have hd : natDigs a = ['0'] := asString_injective h
    have := congrArg decDigs hd
    rw [decDigs_natDigs] at this
    simp [decDigs] at this
    omega
  · rw [repr_eq_natDigs a ha, repr_eq_natDigs b hb] at h
    exact natDigs_injective (asString_injective h)

theorem natDigs_ne_nil (n : Nat) (h : n ≠ 0) : natDigs n ≠ [] := by
  intro hnil
  have := congrArg decDigs hnil
  rw [decDigs_natDigs] at this
  simp [decDigs] at this
  omega

theorem repr_ne_empty (n : Nat) (h : n ≠ 0) : Nat.repr n ≠ "" := by
  rw [repr_eq_natDigs n h]
  intro habs
  exact natDigs_ne_nil n h (asString_injective habs)

theorem mkCsvFilename_injective (root : String) :
    Function.Injective (mkCsvFilename root) := by
  intro i j h
  unfold mkCsvFilename at h
  have hdata := congrArg String.data h
  simp only [String.data_append] at hdata
  rw [List.append_assoc, List.append_assoc] at hdata
  have hmid : (if i = 0 then "" else Nat.repr (i + 1)).data =
      (if j = 0 then "" else Nat.repr (j + 1)).data :=
    List.append_cancel_right (List.append_cancel_left hdata)
  by_cases hi : i = 0 <;> by_cases hj : j = 0
  · omega
  · exfalso
    rw [if_pos hi, if_neg hj] at hmid
    exact repr_ne_empty (j + 1) (by omega) (String.ext hmid.symm)
  · exfalso
    rw [if_neg hi, if_pos hj] at hmid
    exact repr_ne_empty (i + 1) (by omega) (String.ext hmid)
  · rw [if_neg hi, if_neg hj] at hmid
    have := repr_injective (String.ext hmid)
    omega

theorem mkCsvFilename_mem_range_map (root : String) (i n : Nat) :
    mkCsvFilename root i ∈ (List.range n).map (mkCsvFilename root) ↔ i < n := by
  constructor
  · intro h
    obtain ⟨a, ha, heq⟩ := List.mem_map.mp h
    have hai := mkCsvFilename_injective root heq
    subst hai
    exact List.mem_range.mp ha
  · intro h
    exact List.mem_map.mpr ⟨i, List.mem_range.mpr h, rfl⟩

theorem namedChunks_nil {Row : Type} (root : String) (C k : Nat) :
    namedChunks root C k ([] : List Row) = [] := by
  rw [namedChunks]

theorem namedChunks_cons {Row : Type} (root : String) (C k : Nat) (l : List Row)
    (hl : l ≠ []) (hC : C ≠ 0) :
    namedChunks root C k l =
      (mkCsvFilename root k, l.take C) :: namedChunks root C (k + 1) (l.drop C) := by
  cases l with
  | nil => exact absurd rfl hl
  | cons a rest =>
    rw [namedChunks]
    rw [dif_neg hC]

theorem namedChunks_join {Row : Type} (root : String) (C : Nat) (hC : 0 < C) :
    ∀ (l : List Row) (k : Nat),
      ((namedChunks root C k l).map Prod.snd).flatten = l := by
  suffices h : ∀ (n : Nat) (l : List Row), l.length ≤ n → ∀ k,
      ((namedChunks root C k l).map Prod.snd).flatten = l by
    intro l k; exact h l.length l le_rfl k
  intro n
  induction n with
  | zero =>
    intro l hl k
    have hl0 : l = [] := List.length_eq_zero.mp (by omega)
    subst hl0
    simp [namedChunks_nil]
  | succ n ih =>
    intro l hl k
    by_cases hnil : l = []
    · subst hnil; simp [namedChunks_nil]
    · rw [namedChunks_cons root C k l hnil (by omega)]
      have hlt : (l.drop C).length ≤ n := by
        have := List.length_pos.mpr hnil
        simp only [List.length_drop]
        omega
      simp only [List.map_cons, List.flatten_cons, ih (l.drop C) hlt (k + 1)]
      exact List.take_append_drop C l

/-- The number of chunks grows by one when at least one record is
present. -/

theorem chunkCount_succ (C : Nat) (hC : 0 < C) (n : Nat) (hn : 0 < n) :
    (n + C - 1) / C = ((n - C) + C - 1) / C + 1 := by
  by_cases hle : n ≤ C
  · have h1 : n + C - 1 = (n - 1) + C := by omega
    have h2 : n - C = 0 := by omega
    rw [h1, Nat.add_div_right _ hC, h2, Nat.div_eq_of_lt (by omega),
      Nat.div_eq_of_lt (by omega)]
  · have h1 : n + C - 1 = ((n - 1 - C) + C) + C := by omega
    have h2 : (n - C) + C - 1 = (n - 1 - C) + C := by omega
    rw [h1, h2, Nat.add_div_right _ hC, Nat.add_div_right _ hC]

theorem namedChunks_length {Row : Type} (root : String) (C : Nat) (hC : 0 < C) :
    ∀ (l : List Row) (k : Nat),
      (namedChunks root C k l).length = (l.length + C - 1) / C := by
  suffices h : ∀ (n : Nat) (l : List Row), l.length ≤ n → ∀ k,
      (namedChunks root C k l).length = (l.length + C - 1) / C by
    intro l k; exact h l.length l le_rfl k
  intro n
  induction n with
  | zero =>
    intro l hl k
    have hl0 : l = [] := List.length_eq_zero.mp (by omega)
    subst hl0
    simp [namedChunks_nil, Nat.div_eq_of_lt, hC]
  | succ n ih =>
    intro l hl k
    by_cases hnil : l = []
    · subst hnil
      simp [namedChunks_nil, Nat.div_eq_of_lt, hC]
    · have hpos := List.length_pos.mpr hnil
      rw [namedChunks_cons root C k l hnil (by omega)]
      have hlt : (l.drop C).length ≤ n := by
        simp only [List.length_drop]; omega
      simp only [List.length_cons, ih (l.drop C) hlt (k + 1), List.length_drop]
      rw [chunkCount_succ C hC l.length hpos]

theorem namedChunks_fst {Row : Type} (root : String) (C : Nat) (hC : 0 < C) :
    ∀ (l : List Row) (k : Nat),
      (namedChunks root C k l).map Prod.fst =
        (List.range ((l.length + C - 1) / C)).map (fun j => mkCsvFilename root (k + j)) := by
  suffices h : ∀ (n : Nat) (l : List Row), l.length ≤ n → ∀ k,
      (namedChunks root C k l).map Prod.fst =
        (List.range ((l.length + C - 1) / C)).map (fun j => mkCsvFilename root (k + j)) by
    intro l k; exact h l.length l le_rfl k
  intro n
  induction n with
  | zero =>
    intro l hl k
    have hl0 : l = [] := List.length_eq_zero.mp (by omega)
    subst hl0
    simp [namedChunks_nil, Nat.div_eq_of_lt, hC]
  | succ n ih =>
    intro l hl k
    by_cases hnil : l = []
    · subst hnil
      simp [namedChunks_nil, Nat.div_eq_of_lt, hC]
    · have hpos := List.length_pos.mpr hnil
      rw [namedChunks_cons root C k l hnil (by omega)]
      have hlt : (l.drop C).length ≤ n := by
        simp only [List.length_drop]; omega
      rw [chunkCount_succ C hC l.length hpos, List.range_succ_eq_map]
      simp only [List.map_cons, List.map_map, ih (l.drop C) hlt (k + 1),
        List.length_drop]
      congr 1
      apply List.map_congr_left
      intro a _
      simp only [Function.comp]
      rw [show k + (a + 1) = k + 1 + a by omega]

theorem namedChunks_dropLast_length {Row : Type} (root : String) (C : Nat) (hC : 0 < C) :
    ∀ (l : List Row) (k : Nat) (b : String × List Row),
      b ∈ (namedChunks root C k l).dropLast → b.2.length = C := by
  suffices h : ∀ (n : Nat) (l : List Row), l.length ≤ n → ∀ k b,
      b ∈ (namedChunks root C k l).dropLast → b.2.length = C by
    intro l k; exact h l.length l le_rfl k
  intro n
  induction n with
  | zero =>
    intro l hl k b hb
    have hl0 : l = [] := List.length_eq_zero.mp (by omega)
    subst hl0
    simp [namedChunks_nil] at hb
  | succ n ih =>
    intro l hl k b hb
    by_cases hnil : l = []
    · subst hnil; simp [namedChunks_nil] at hb
    · rw [namedChunks_cons root C k l hnil (by omega)] at hb
      by_cases hdrop : l.drop C = []
      · rw [hdrop, namedChunks_nil] at hb
        simp at hb
      · have hlen : C < l.length := by
          by_contra hcon
          exact hdrop (List.drop_eq_nil_of_le (by omega))
        rw [namedChunks_cons root C (k + 1) (l.drop C) hdrop (by omega),
          List.dropLast_cons₂] at hb
        rcases List.mem_cons.mp hb with hb1 | hb2
        · subst hb1
          simp only [List.length_take]
          omega
        · rw [← namedChunks_cons root C (k + 1) (l.drop C) hdrop (by omega)] at hb2
          exact ih (l.drop C) (by simp only [List.length_drop]; omega) (k + 1) b hb2

theorem namedChunks_getLast {Row : Type} (root : String) (C : Nat) (hC : 0 < C) :
    ∀ (l : List Row) (k : Nat), l.length % C ≠ 0 →
      ((namedChunks root C k l).getLast?).map (fun b => b.2.length) =
        some (l.length % C) := by
  suffices h : ∀ (n : Nat) (l : List Row), l.length ≤ n → ∀ k, l.length % C ≠ 0 →
      ((namedChunks root C k l).getLast?).map (fun b => b.2.length) =
        some (l.length % C) by
    intro l k; exact h l.length l le_rfl k
  intro n
  induction n with
  | zero =>
    intro l hl k hmod
    have hl0 : l = [] := List.length_eq_zero.mp (by omega)
    subst hl0
    simp at hmod
  | succ n ih =>
    intro l hl k hmod
    by_cases hnil : l = []
    · subst hnil; simp at hmod
    · rw [namedChunks_cons root C k l hnil (by omega)]
      by_cases hdrop : l.drop C = []
      · have hle : l.length ≤ C := by
          by_contra hcon
          have : (l.drop C).length = l.length - C := List.length_drop C l
          rw [hdrop] at this
          simp at this
          omega
        have hlt : l.length < C := by
          rcases Nat.lt_or_ge l.length C with h1 | h1
          · exact h1
          · exfalso; have : l.length = C := by omega
            rw [this, Nat.mod_self] at hmod; exact hmod rfl
        rw [hdrop, namedChunks_nil]
        simp [List.take_of_length_le (le_of_lt hlt), Nat.mod_eq_of_lt hlt]
      · have hlen : C < l.length := by
          by_contra hcon
          exact hdrop (List.drop_eq_nil_of_le (by omega))
        rw [namedChunks_cons root C (k + 1) (l.drop C) hdrop (by omega),
          List.getLast?_cons_cons,
          ← namedChunks_cons root C (k + 1) (l.drop C) hdrop (by omega)]
        have hmod' : (l.drop C).length % C ≠ 0 := by
          simp only [List.length_drop]
          rwa [← Nat.mod_eq_sub_mod (by omega)]
        rw [ih (l.drop C) (by simp only [List.length_drop]; omega) (k + 1) hmod']
        simp only [List.length_drop]
        rw [← Nat.mod_eq_sub_mod (by omega)]

/-! ### Filename-selection lemmas -/

theorem getNext_ok (root : String) (inter : Bool) (ans : String) (fs : List String)
    (idx : Nat) (h : mkCsvFilename root idx ∉ fs) :
    getNextCsvFilename root inter ans fs 1 idx =
      some (Except.ok (mkCsvFilename root idx)) := by
  simp [getNextCsvFilename, h]

theorem mk_not_mem_range_reverse (root : String) (i n : Nat) (h : n ≤ i) :
    mkCsvFilename root i ∉ ((List.range n).map (mkCsvFilename root)).reverse := by
  intro hmem
  rw [List.mem_reverse] at hmem
  have := (mkCsvFilename_mem_range_map root i n).mp hmem
  omega

theorem fsInv_cons (root : String) (fi : Nat) (h : 1 ≤ fi) :
    mkCsvFilename root (fi - 1) ::
        ((List.range (fi - 1)).map (mkCsvFilename root)).reverse
      = ((List.range fi).map (mkCsvFilename root)).reverse := by
  conv_rhs => rw [show fi = (fi - 1) + 1 by omega, List.range_succ]
  simp

/-! ### Buffer lemmas -/

theorem saveRows_fill {Row : Type} (l : List Row) (k : Nat) :
    saveRows (l.map some ++ List.replicate k none) = l := by
  induction l with
  | nil =>
    cases k with
    | zero => simp [saveRows]
    | succ k => simp [List.replicate_succ, saveRows]
  | cons r rest ih => simp [saveRows, ih]

theorem set_fill {Row : Type} (l : List Row) (r : Row) (k : Nat) (hk : 0 < k) :
    (l.map some ++ List.replicate k none).set l.length (some r) =
      (l ++ [r]).map some ++ List.replicate (k - 1) none := by
  induction l with
  | nil =>
    cases k with
    | zero => omega
    | succ k => simp [List.replicate_succ]
  | cons a rest ih => simp [ih]

/-! ### The main run lemma

Loop invariant of `wrapper`'s `for` loop, for a non-interactive run on a
fresh directory: at a state whose buffer holds the rows `prev`
(`rows_counter = prev.length < C`), whose current filename carries index
`fi - 1`, and whose directory holds exactly the `fi - 1` files already
flushed, feeding the remaining rows `rem` flushes exactly the capacity
chunks of `prev ++ rem` under consecutively indexed filenames, and the
generator's exception (if any) propagates only after the final flush. -/

theorem csvOutGo_run {Row : Type} (root ans : String) (C : Nat) (hC : 0 < C) :
    ∀ (rem prev : List Row) (raises : Bool) (fi : Nat)
      (acc : List (String × List Row)),
      prev.length < C → 1 ≤ fi →
      csvOutGo C root false ans 1 rem raises
          (((List.range (fi - 1)).map (mkCsvFilename root)).reverse)
          fi (mkCsvFilename root (fi - 1))
          (prev.map some ++ List.replicate (C - prev.length) none)
          prev.length acc
        = some ⟨acc ++ namedChunks root C (fi - 1) (prev ++ rem),
                if raises then CsvOutcome.raised else CsvOutcome.ok⟩ := by
  intro rem
  induction rem with
  | nil =>
    intro prev raises fi acc hprev hfi
    simp only [csvOutGo, saveRows_fill, List.append_nil]
    by_cases hp : prev = []
    · subst hp
      simp [namedChunks_nil]
    · have hlen : ¬prev.length = 0 := fun hz => hp (List.length_eq_zero.mp hz)
      rw [if_pos hlen, namedChunks_cons root C (fi - 1) prev hp (by omega),
        List.take_of_length_le (le_of_lt hprev),
        List.drop_eq_nil_of_le (le_of_lt hprev), namedChunks_nil]
  | cons r rest ih =>
    intro prev raises fi acc hprev hfi
    simp only [csvOutGo]
    rw [set_fill prev r (C - prev.length) (by omega)]
    have hsub : C - prev.length - 1 = C - (prev.length + 1) := by omega
    rw [hsub]
    by_cases hfull : prev.length + 1 = C
    · have hmod : (prev.length + 1) % C = 0 := by rw [hfull]; exact Nat.mod_self C
      rw [if_pos hmod, fsInv_cons root fi hfi,
        getNext_ok root false ans (((List.range fi).map (mkCsvFilename root)).reverse)
          fi (mk_not_mem_range_reverse root fi fi le_rfl)]
      have hsave : saveRows ((prev ++ [r]).map some ++
          List.replicate (C - (prev.length + 1)) none) = prev ++ [r] :=
        saveRows_fill (prev ++ [r]) (C - (prev.length + 1))
      rw [hsave]
      have hrec := ih [] raises (fi + 1)
        (acc ++ [(mkCsvFilename root (fi - 1), prev ++ [r])]) (by simpa using hC)
        (by omega)
      simp only [Nat.add_sub_cancel, List.map_nil, List.nil_append, List.length_nil,
        Nat.sub_zero] at hrec
      have hlen1 : (prev ++ [r]).length = C := by
        simp only [List.length_append, List.length_singleton]
        omega
      have hchunks : acc ++ [(mkCsvFilename root (fi - 1), prev ++ [r])] ++
            namedChunks root C fi rest
          = acc ++ namedChunks root C (fi - 1) (prev ++ r :: rest) := by
        rw [show prev ++ r :: rest = (prev ++ [r]) ++ rest from by simp,
          namedChunks_cons root C (fi - 1) ((prev ++ [r]) ++ rest) (by simp) (by omega),
          List.take_left' hlen1, List.drop_left' hlen1,
          show fi - 1 + 1 = fi from by omega]
        simp
      exact hrec.trans (by rw [hchunks])
    · have hlt : prev.length + 1 < C := by omega
      have hmod : ¬(prev.length + 1) % C = 0 := by
        rw [Nat.mod_eq_of_lt hlt]; omega
      rw [if_neg hmod]
      have hrec := ih (prev ++ [r]) raises fi acc
        (by simp only [List.length_append, List.length_singleton]; omega) hfi
      simp only [List.length_append, List.length_singleton] at hrec
      rw [show (prev ++ [r]) ++ rest = prev ++ r :: rest from by simp] at hrec
      exact hrec

/-- A non-interactive `csv_out` run on a fresh directory flushes exactly
the capacity chunks of the yielded stream, under consecutively indexed
filenames, whether the generator completes or raises. -/

theorem csvOutWrapper_run {Row : Type} (root ans : String) (C : Nat) (hC : 0 < C)
    (rows : List Row) (raises : Bool) :
    csvOutWrapper Row C root false ans 1 [] ⟨rows, raises⟩ =
      some ⟨namedChunks root C 0 rows,
            if raises then CsvOutcome.raised else CsvOutcome.ok⟩ := by
  unfold csvOutWrapper
  rw [getNext_ok root false ans [] 0 (by simp)]
  have h := csvOutGo_run root ans C hC rows [] raises 1 [] (by simpa using hC) le_rfl
  simp only [Nat.sub_self, List.range_zero, List.map_nil, List.reverse_nil,
    List.nil_append, List.length_nil, Nat.sub_zero] at h
  exact h.trans (by simp)

/-! ## Claim theorems -/

/-- C4: with the default budget of 5 attempts, an operation that fails
on attempts 1-4 and succeeds on attempt 5 has the retry call return the
attempt-5 success value; one that also fails on attempt 5 has that fifth
failure propagated to the caller unchanged, and the operation is never
invoked a 6th time — the result is already determined by the first five
attempts, whatever any later attempt would do. -/

theorem retry_default_budget {E A : Type} (op : Nat → Except E A) (e : Nat → E)
    (hfail : ∀ j, 1 ≤ j → j ≤ 4 → op j = Except.error (e j)) :
    (∀ a, op 5 = Except.ok a → retry op = some (Except.ok a)) ∧
    (∀ e5, op 5 = Except.error e5 →
      retry op = some (Except.error e5) ∧
      ∀ op' : Nat → Except E A, (∀ j, 1 ≤ j → j ≤ 5 → op' j = op j) →
        retry op' = some (Except.error e5)) := by
  have h1 := hfail 1 (by omega) (by omega)
  have h2 := hfail 2 (by omega) (by omega)
  have h3 := hfail 3 (by omega) (by omega)
  have h4 := hfail 4 (by omega) (by omega)
  constructor
  · intro a ha
    simp [retry, retryWith, retryAux, h1, h2, h3, h4, ha]
  · intro e5 h5
    constructor
    · simp [retry, retryWith, retryAux, h1, h2, h3, h4, h5]
    · intro op' hagree
      have h1' := (hagree 1 (by omega) (by omega)).trans h1
      have h2' := (hagree 2 (by omega) (by omega)).trans h2
      have h3' := (hagree 3 (by omega) (by omega)).trans h3
      have h4' := (hagree 4 (by omega) (by omega)).trans h4
      have h5' := (hagree 5 (by omega) (by omega)).trans h5
      simp [retry, retryWith, retryAux, h1', h2', h3', h4', h5']

/-- Witness for C4 at a concrete operation: failing attempts 1-4 then
succeeding returns the success; failing all five propagates the fifth
error. -/

theorem retry_default_budget_witness :
    retry (fun j => if j < 5 then Except.error j else (Except.ok 42 : Except Nat Nat)) =
        some (Except.ok 42) ∧
      retry (fun j => (Except.error j : Except Nat Nat)) = some (Except.error 5) := by
  constructor
  · exact (retry_default_budget
      (fun j => if j < 5 then Except.error j else (Except.ok 42 : Except Nat Nat))
      (fun j => j)
      (fun j hj1 hj4 => by
        show (if j < 5 then Except.error j else (Except.ok 42 : Except Nat Nat)) =
          Except.error j
        rw [if_pos (show j < 5 by omega)])).1 42 rfl
  · exact ((retry_default_budget (fun j => (Except.error j : Except Nat Nat))
      (fun j => j) (fun j hj1 hj4 => rfl)).2 5 rfl).1

/-- C9 counterexample: with options `(y, N)`, an empty operator answer
does not map to the declining answer — `prompt` ignores it and returns
the next explicit answer (here the affirmative one), and an empty answer
alone leaves the prompt still waiting. -/

theorem prompt_empty_answer_counterexample :
    prompt ["y", "N"] ["", "y"] = some "y" ∧ prompt ["y", "N"] [""] = none := by
  constructor <;> rfl

/-- C9 (amended): an empty answer is never accepted or defaulted —
`prompt` skips it and re-queries, and whenever it returns, the returned
answer is non-empty and (when options are given) one of the exact
options. -/

theorem prompt_requires_explicit_answer (options rest : List String) :
    prompt options ("" :: rest) = prompt options rest ∧
    ∀ inputs ans, prompt options inputs = some ans →
      ans ≠ "" ∧ (options = [] ∨ ans ∈ options) := by
  constructor
  · simp [prompt]
  · intro inputs
    induction inputs with
    | nil => intro ans h; simp [prompt] at h
    | cons a tail ih =>
      intro ans h
      rw [prompt] at h
      by_cases hcond : a ≠ "" ∧ (options = [] ∨ a ∈ options)
      · rw [if_pos hcond] at h
        injection h with h'
        subst h'
        exact hcond
      · rw [if_neg hcond] at h
        exact ih ans h

/-- Witness for C9's amended statement at options `(y, N)`: the empty
answer is skipped, and the returned answer `N` is a non-empty member of
the options. -/

theorem prompt_requires_explicit_answer_witness :
    prompt ["y", "N"] ("" :: ["N"]) = prompt ["y", "N"] ["N"] ∧
      ("N" : String) ≠ "" ∧
      ((["y", "N"] : List String) = [] ∨ "N" ∈ (["y", "N"] : List String)) :=
  ⟨(prompt_requires_explicit_answer ["y", "N"] ["N"]).1,
    (prompt_requires_explicit_answer ["y", "N"] ["N"]).2 ["N"] "N" (by decide)⟩

/-- C1: for every record stream and positive buffer capacity `C`, the
chunked writer produces exactly `⌈N / C⌉` batches, every non-final batch
holds exactly `C` records, the final batch holds `N % C` records
whenever `N % C ≠ 0`, and the concatenation of the batch contents in
batch order is the input stream. -/

theorem csv_out_chunked_batches (Row : Type) (root ans : String) (C : Nat)
    (rows : List Row) (hC : 0 < C) :
    ∃ batches : List (String × List Row),
      csvOutWrapper Row C root false ans 1 [] ⟨rows, false⟩ =
          some ⟨batches, CsvOutcome.ok⟩ ∧
        batches.length = (rows.length + C - 1) / C ∧
        (∀ b ∈ batches.dropLast, b.2.length = C) ∧
        (rows.length % C ≠ 0 →
          (batches.getLast?).map (fun b => b.2.length) = some (rows.length % C)) ∧
        (batches.map Prod.snd).flatten = rows := by
  refine ⟨namedChunks root C 0 rows, ?_, ?_, ?_, ?_, ?_⟩
  · simpa using csvOutWrapper_run root ans C hC rows false
  · exact namedChunks_length root C hC rows 0
  · intro b hb
    exact namedChunks_dropLast_length root C hC rows 0 b hb
  · intro hmod
    exact namedChunks_getLast root C hC rows 0 hmod
  · exact namedChunks_join root C hC rows 0

/-- Witness for C1: capacity 2, five records — three batches of sizes
2, 2 and 1 whose concatenation is the stream. -/

theorem csv_out_chunked_batches_witness :
    ∃ batches : List (String × List Nat),
      csvOutWrapper Nat 2 "out" false "y" 1 [] ⟨[1, 2, 3, 4, 5], false⟩ =
          some ⟨batches, CsvOutcome.ok⟩ ∧
        batches.length = (([1, 2, 3, 4, 5] : List Nat).length + 2 - 1) / 2 ∧
        (∀ b ∈ batches.dropLast, b.2.length = 2) ∧
        (([1, 2, 3, 4, 5] : List Nat).length % 2 ≠ 0 →
          (batches.getLast?).map (fun b => b.2.length) =
            some (([1, 2, 3, 4, 5] : List Nat).length % 2)) ∧
        (batches.map Prod.snd).flatten = [1, 2, 3, 4, 5] :=
  csv_out_chunked_batches Nat "out" "y" 2 [1, 2, 3, 4, 5] (by decide)

/-- C3: on both exit paths of the writer — normal completion of the
wrapped generator, and an exception raised from it — the records in the
partial buffer are flushed before control leaves the wrapper, so the
flushed batches always concatenate to the full yielded stream. -/

theorem csv_out_flush_on_every_exit (Row : Type) (root ans : String) (C : Nat)
    (rows : List Row) (raises : Bool) (hC : 0 < C) :
    ∃ batches : List (String × List Row),
      csvOutWrapper Row C root false ans 1 [] ⟨rows, raises⟩ =
          some ⟨batches, if raises then CsvOutcome.raised else CsvOutcome.ok⟩ ∧
        (batches.map Prod.snd).flatten = rows :=
  ⟨namedChunks root C 0 rows, csvOutWrapper_run root ans C hC rows raises,
    namedChunks_join root C hC rows 0⟩

/-- Witness for C3: a generator that yields three records and then
raises, with capacity 10 (never reached): the partial buffer is still
flushed as one batch before the exception escapes. -/

theorem csv_out_flush_on_every_exit_witness :
    ∃ batches : List (String × List Nat),
      csvOutWrapper Nat 10 "out" false "y" 1 [] ⟨[1, 2, 3], true⟩ =
          some ⟨batches, CsvOutcome.raised⟩ ∧
        (batches.map Prod.snd).flatten = [1, 2, 3] :=
  csv_out_flush_on_every_exit Nat "out" "y" 10 [1, 2, 3] true (by decide)

/-- C5: when the index-0 batch file for the root filename already exists
and the interactive operator answers `N`, `get_next_csv_filename` raises
`IntensiveOpException` before any filename is handed out, and the
wrapper catches it and finishes as a clean no-op: no batch is written
and the outcome is a normal return, not an error. -/

theorem csv_out_skip_guard (Row : Type) (C : Nat) (root : String)
    (fs : List String) (run : GenRun Row) (fuel : Nat)
    (hmem : mkCsvFilename root 0 ∈ fs) :
    getNextCsvFilename root true "N" fs (fuel + 1) 0 = some (Except.error ()) ∧
    csvOutWrapper Row C root true "N" (fuel + 1) fs run =
      some ⟨[], CsvOutcome.ok⟩ := by
  have hg : getNextCsvFilename root true "N" fs (fuel + 1) 0 =
      some (Except.error ()) := by
    simp [getNextCsvFilename, hmem]
  refine ⟨hg, ?_⟩
  unfold csvOutWrapper
  rw [hg]

/-- Witness for C5: `r.csv` exists, the operator declines — the run is
a clean no-op. -/

theorem csv_out_skip_guard_witness :
    getNextCsvFilename "r" true "N" ["r.csv"] 1 0 = some (Except.error ()) ∧
    csvOutWrapper Nat 3 "r" true "N" 1 ["r.csv"] ⟨[7, 8], true⟩ =
      some ⟨[], CsvOutcome.ok⟩ :=
  csv_out_skip_guard Nat 3 "r" ["r.csv"] ⟨[7, 8], true⟩ 0 (by decide)

/-- C6 counterexample: a fresh run with capacity 1 and three records
names its batches `out.csv`, `out2.csv`, `out3.csv` — the second file's
numeric suffix is 2, not 1, so the claimed sequence `root`, `root1`,
`root2`, ... does not occur. -/

theorem csv_out_filename_counterexample :
    csvOutWrapper Nat 1 "out" false "y" 1 [] ⟨[10, 20, 30], false⟩ =
        some ⟨[("out.csv", [10]), ("out2.csv", [20]), ("out3.csv", [30])],
          CsvOutcome.ok⟩ ∧
      ("out2.csv" : String) ≠ "out1.csv" := by
  constructor
  · rfl
  · decide

/-- C6 (amended): the batch filenames of a fresh run are `root.csv`,
`root2.csv`, `root3.csv`, ... — the first file carries no numeric
suffix and the numeric suffixes of subsequent files begin at 2 for the
second file, incrementing by one per file. -/

theorem csv_out_filename_indices (Row : Type) (root ans : String) (C : Nat)
    (rows : List Row) (hC : 0 < C) :
    ∃ batches : List (String × List Row),
      csvOutWrapper Row C root false ans 1 [] ⟨rows, false⟩ =
          some ⟨batches, CsvOutcome.ok⟩ ∧
        batches.map Prod.fst =
          (List.range ((rows.length + C - 1) / C)).map
            (fun k => root ++ (if k = 0 then "" else Nat.repr (k + 1)) ++ ".csv") := by
  refine ⟨namedChunks root C 0 rows,
    by simpa using csvOutWrapper_run root ans C hC rows false, ?_⟩
  rw [namedChunks_fst root C hC rows 0]
  apply List.map_congr_left
  intro a _
  simp [mkCsvFilename]

/-- Witness for C6's amended statement: three records at capacity 1. -/

theorem csv_out_filename_indices_witness :
    ∃ batches : List (String × List Nat),
      csvOutWrapper Nat 1 "out" false "y" 1 [] ⟨[5, 6, 7], false⟩ =
          some ⟨batches, CsvOutcome.ok⟩ ∧
        batches.map Prod.fst =
          (List.range ((([5, 6, 7] : List Nat).length + 1 - 1) / 1)).map
            (fun k => "out" ++ (if k = 0 then "" else Nat.repr (k + 1)) ++ ".csv") :=
  csv_out_filename_indices Nat "out" "y" 1 [5, 6, 7] (by decide)

/-- A non-interactive `get_next_csv_filename` never consults the prompt
answer. -/

theorem getNext_ans_irrelevant (root ans ans' : String) (fs : List String) :
    ∀ fuel idx, getNextCsvFilename root false ans fs fuel idx =
      getNextCsvFilename root false ans' fs fuel idx := by
  intro fuel
  induction fuel with
  | zero => intro idx; rfl
  | succ fuel ih =>
    intro idx
    simp only [getNextCsvFilename]
    by_cases hmem : mkCsvFilename root idx ∈ fs
    · rw [if_pos hmem, if_pos hmem,
        if_neg (show ¬(idx = 0 ∧ false = true ∧ ans = "N") by simp),
        if_neg (show ¬(idx = 0 ∧ false = true ∧ ans' = "N") by simp)]
      exact ih _
    · rw [if_neg hmem, if_neg hmem]

/-- If among the next `fuel` candidate filenames fewer than `fuel` are
taken, the non-interactive recursion reaches a filename that is not on
disk. -/

theorem getNext_succeeds (root ans : String) (fs : List String) :
    ∀ (fuel idx : Nat), 1 ≤ idx →
      (((List.range fuel).map (fun t => mkCsvFilename root (idx + t))).filter
          (fun f => f ∈ fs)).length < fuel →
      ∃ f, getNextCsvFilename root false ans fs fuel idx =
          some (Except.ok f) ∧ f ∉ fs := by
  intro fuel
  induction fuel with
  | zero =>
    intro idx _ hcount
    simp at hcount
  | succ fuel ih =>
    intro idx hidx hcount
    simp only [getNextCsvFilename]
    by_cases hmem : mkCsvFilename root idx ∈ fs
    · rw [if_pos hmem, if_neg (by simp), if_neg (show ¬idx = 0 by omega)]
      apply ih (idx + 1) (by omega)
      have hexp : (List.range (fuel + 1)).map (fun t => mkCsvFilename root (idx + t)) =
          mkCsvFilename root idx ::
            (List.range fuel).map (fun t => mkCsvFilename root (idx + 1 + t)) := by
        rw [List.range_succ_eq_map]
        simp only [List.map_cons, List.map_map, Nat.add_zero]
        congr 1
        apply List.map_congr_left
        intro a _
        simp only [Function.comp]
        rw [show idx + (a + 1) = idx + 1 + a by omega]
      rw [hexp, List.filter_cons_of_pos (by simpa using hmem)] at hcount
      simpa using Nat.lt_of_succ_lt_succ (by simpa using hcount)
    · rw [if_neg hmem]
      exact ⟨mkCsvFilename root idx, rfl, hmem⟩

/-- C10: when the writer is non-interactive and the index-0 batch file
for the root already exists, no confirmation is consulted and no
`IntensiveOpException` is raised: filename selection silently recurses
past every existing file (fuel `|fs| + 2` always suffices) and returns a
path that does not yet exist, so an existing batch file is never chosen
as the write target. -/

theorem filename_selection_non_interactive (root ans : String) (fs : List String)
    (hmem : mkCsvFilename root 0 ∈ fs) :
    ∃ f, getNextCsvFilename root false ans fs (fs.length + 2) 0 =
        some (Except.ok f) ∧
      f ∉ fs ∧
      ∀ ans', getNextCsvFilename root false ans' fs (fs.length + 2) 0 =
        getNextCsvFilename root false ans fs (fs.length + 2) 0 := by
  have hstep : getNextCsvFilename root false ans fs (fs.length + 2) 0 =
      getNextCsvFilename root false ans fs (fs.length + 1) 1 := by
    simp [getNextCsvFilename, hmem]
  have hnodup : ((List.range (fs.length + 1)).map
      (fun t => mkCsvFilename root (1 + t))).Nodup := by
    apply List.Nodup.map
    · intro a b hab
      have := mkCsvFilename_injective root hab
      omega
    · exact List.nodup_range _
  have hsub : ((List.range (fs.length + 1)).map
      (fun t => mkCsvFilename root (1 + t))).filter (fun f => f ∈ fs) ⊆ fs := by
    intro x hx
    simpa using (List.mem_filter.mp hx).2
  have hcount : (((List.range (fs.length + 1)).map
      (fun t => mkCsvFilename root (1 + t))).filter (fun f => f ∈ fs)).length <
        fs.length + 1 := by
    have h1 := ((hnodup.filter _).subperm hsub).length_le
    omega
  obtain ⟨f, hf, hfs⟩ := getNext_succeeds root ans fs (fs.length + 1) 1 le_rfl hcount
  exact ⟨f, hstep.trans hf, hfs, fun ans' =>
    getNext_ans_irrelevant root ans' ans fs (fs.length + 2) 0⟩

/-- Witness for C10: with `r.csv` and `r2.csv` on disk, selection skips
both — with either prompt answer — and lands on a fresh filename. -/

theorem filename_selection_non_interactive_witness :
    ∃ f, getNextCsvFilename "r" false "y" ["r.csv", "r2.csv"] 4 0 =
        some (Except.ok f) ∧
      f ∉ ["r.csv", "r2.csv"] ∧
      ∀ ans', getNextCsvFilename "r" false ans' ["r.csv", "r2.csv"] 4 0 =
        getNextCsvFilename "r" false "y" ["r.csv", "r2.csv"] 4 0 :=
  filename_selection_non_interactive "r" "y" ["r.csv", "r2.csv"] (by decide)

/-- When every listing of a page has a map tag, every listing yields a
record. -/

theorem extractLinks_length_of_maptag (domain : String) :
    ∀ listings : List Listing, (∀ l ∈ listings, l.hasMapTag = true) →
      (extractLinks domain listings).length = listings.length := by
  intro listings
  induction listings with
  | nil => intro _; rfl
  | cons a rest ih =>
    intro h
    have ha := h a (by simp)
    have hrest := ih (fun l hl => h l (by simp [hl]))
    simp only [extractLinks] at hrest ⊢
    rw [List.filterMap_cons]
    simp [ha, hrest]

/-- When a page parses to a full page of listings, the loop emits its
links, records its offset, advances `payload[\"s\"]` by `MAX_RESULTS`,
and fetches the next page with `listings` now bound to this page. -/

theorem scrapeJobsLoop_advance (remote : Nat → Except Unit (List Listing))
    (domain : String) (fuel s : Nat) (prev : Option (List Listing))
    (listings : List Listing) (hok : remote s = Except.ok listings)
    (hne : ¬listings.length = 0) (hfull : ¬listings.length < MAX_RESULTS) :
    scrapeJobsLoop remote domain (fuel + 1) s prev =
      (scrapeJobsLoop remote domain fuel (s + MAX_RESULTS) (some listings)).map
        (fun run => ⟨extractLinks domain listings ++ run.links, s :: run.offsets,
          run.outcome⟩) := by
  simp only [scrapeJobsLoop, hok]
  rw [if_neg hne, if_neg hfull]

/-- The pagination loop over a fully parsing page sequence: every page
before the last is exactly `MAX_RESULTS` long and keeps the loop going;
the short final page is still fully processed and then the loop breaks.
Fuel equal to the number of pages suffices. -/

theorem scrapeJobsLoop_pages (domain : String) :
    ∀ (front : List (List Listing)) (last : List Listing)
      (remote : Nat → Except Unit (List Listing)) (s : Nat)
      (prev : Option (List Listing)),
      (∀ i, i < front.length + 1 →
        remote (s + MAX_RESULTS * i) = Except.ok ((front ++ [last]).getD i [])) →
      (∀ p ∈ front, p.length = MAX_RESULTS) →
      last.length < MAX_RESULTS →
      scrapeJobsLoop remote domain (front.length + 1) s prev =
        some ⟨((front ++ [last]).map (extractLinks domain)).flatten,
              (List.range (front.length + 1)).map (fun k => s + MAX_RESULTS * k),
              LoopOutcome.exhausted⟩ := by
  intro front
  induction front with
  | nil =>
    intro last remote s prev hremote hfull hshort
    have h0 := hremote 0 (by omega)
    rw [Nat.mul_zero, Nat.add_zero] at h0
    simp only [List.nil_append, List.getD_cons_zero] at h0
    simp only [List.length_nil, Nat.zero_add, scrapeJobsLoop, h0]
    by_cases hz : last.length = 0
    · have hlast : last = [] := List.length_eq_zero.mp hz
      subst hlast
      simp [extractLinks, List.range_succ]
    · rw [if_neg hz, if_pos hshort]
      simp [List.range_succ]
  | cons p front ih =>
    intro last remote s prev hremote hfull hshort
    have h0 := hremote 0 (by omega)
    rw [Nat.mul_zero, Nat.add_zero] at h0
    simp only [List.cons_append, List.getD_cons_zero] at h0
    have hp : p.length = MAX_RESULTS := hfull p (by simp)
    have hMpos : 0 < MAX_RESULTS := by norm_num [MAX_RESULTS]
    have hrec := ih last remote (s + MAX_RESULTS) (some p)
      (fun i hi => by
        have := hremote (i + 1) (by simpa using Nat.succ_lt_succ hi)
        rw [show s + MAX_RESULTS * (i + 1) = s + MAX_RESULTS + MAX_RESULTS * i by ring]
          at this
        simpa using this)
      (fun q hq => hfull q (by simp [hq])) hshort
    simp only [List.length_cons]
    rw [scrapeJobsLoop_advance remote domain (front.length + 1) s prev p h0
        (by omega) (by omega), hrec]
    have hoff : (List.range (front.length + 1 + 1)).map (fun k => s + MAX_RESULTS * k)
        = s :: (List.range (front.length + 1)).map
            (fun k => s + MAX_RESULTS + MAX_RESULTS * k) := by
      rw [List.range_succ_eq_map]
      simp only [List.map_cons, List.map_map, Nat.mul_zero, Nat.add_zero]
      congr 1
      apply List.map_congr_left
      intro a _
      simp only [Function.comp]
      rw [Nat.succ_eq_add_one]
      ring
    simp only [Option.map_some', List.cons_append, List.map_cons, List.flatten_cons, hoff]

/-- C2: for a page sequence in which every page holds exactly
`MAX_RESULTS` (= 100) records and the final page holds fewer, the loop
fetches each page's offset exactly once, in order (`1`, `101`, `201`,
...), emits every page's records — including all records of the final
short page, which are yielded before the loop stops — ends exhausted
exactly then, and the total emitted equals the sum of the page sizes. -/

theorem scrape_jobs_pagination (domain : String) (front : List (List Listing))
    (last : List Listing)
    (hfull : ∀ p ∈ front, p.length = MAX_RESULTS)
    (hshort : last.length < MAX_RESULTS)
    (hmap : ∀ p ∈ front ++ [last], ∀ l ∈ p, l.hasMapTag = true) :
    ∃ run : JobsRun,
      scrapeJobs (remoteOfPages (front ++ [last])) domain (front.length + 1) =
          some run ∧
        run.outcome = LoopOutcome.exhausted ∧
        run.links = ((front ++ [last]).map (extractLinks domain)).flatten ∧
        run.links.length = ((front ++ [last]).map List.length).sum ∧
        run.offsets = (List.range (front.length + 1)).map
          (fun k => 1 + MAX_RESULTS * k) := by
  have hMpos : 0 < MAX_RESULTS := by norm_num [MAX_RESULTS]
  have hremote : ∀ i, i < front.length + 1 →
      remoteOfPages (front ++ [last]) (1 + MAX_RESULTS * i) =
        Except.ok ((front ++ [last]).getD i []) := by
    intro i hi
    show Except.ok ((front ++ [last]).getD ((1 + MAX_RESULTS * i - 1) / MAX_RESULTS) []) =
      Except.ok ((front ++ [last]).getD i [])
    rw [show 1 + MAX_RESULTS * i - 1 = MAX_RESULTS * i by omega,
      Nat.mul_div_cancel_left i hMpos]
  have hrun := scrapeJobsLoop_pages domain front last (remoteOfPages (front ++ [last]))
    1 none hremote hfull hshort
  refine ⟨_, hrun, rfl, rfl, ?_, rfl⟩
  show (((front ++ [last]).map (extractLinks domain)).flatten).length = _
  rw [List.length_flatten, List.map_map]
  apply congrArg List.sum
  apply List.map_congr_left
  intro p hp
  simp only [Function.comp]
  exact extractLinks_length_of_maptag domain p (hmap p hp)

/-- Witness for C2: page size 100, pages of 100, 100 and 37 all-record
listings — the loop fetches offsets 1, 101, 201, emits every page's
records including the final 37, and ends exhausted. -/

theorem scrape_jobs_pagination_witness :
    ∃ run : JobsRun,
      scrapeJobs (remoteOfPages ([List.replicate 100 (⟨true, "/a"⟩ : Listing),
            List.replicate 100 ⟨true, "/b"⟩] ++ [List.replicate 37 ⟨true, "/c"⟩])) "d/"
          (([List.replicate 100 (⟨true, "/a"⟩ : Listing),
            List.replicate 100 ⟨true, "/b"⟩] : List (List Listing)).length + 1) =
          some run ∧
        run.outcome = LoopOutcome.exhausted ∧
        run.links = (([List.replicate 100 (⟨true, "/a"⟩ : Listing),
            List.replicate 100 ⟨true, "/b"⟩] ++ [List.replicate 37 (⟨true, "/c"⟩ : Listing)]).map
              (extractLinks "d/")).flatten ∧
        run.links.length = (([List.replicate 100 (⟨true, "/a"⟩ : Listing),
            List.replicate 100 ⟨true, "/b"⟩] ++ [List.replicate 37 (⟨true, "/c"⟩ : Listing)]).map
              List.length).sum ∧
        run.offsets = (List.range (([List.replicate 100 (⟨true, "/a"⟩ : Listing),
            List.replicate 100 ⟨true, "/b"⟩] : List (List Listing)).length + 1)).map
          (fun k => 1 + MAX_RESULTS * k) :=
  scrape_jobs_pagination "d/"
    [List.replicate 100 (⟨true, "/a"⟩ : Listing), List.replicate 100 ⟨true, "/b"⟩]
    (List.replicate 37 (⟨true, "/c"⟩ : Listing)) (by decide) (by decide) (by decide)

/-- C7 counterexample: when extracting the page at offset 101 raises,
the loop advances to offset 201 and fetches offset 101 exactly once —
the failed page is never re-fetched, its records are absent from the
output, and the run still ends exhausted. -/

theorem scrape_jobs_extraction_failure_counterexample :
    scrapeJobs c7Remote "d/" 3 =
        some ⟨List.replicate 100 "d/a" ++ ["d/c"], [1, 101, 201],
          LoopOutcome.exhausted⟩ ∧
      (([1, 101, 201] : List Nat).count 101 = 1) := by
  constructor
  · rfl
  · rfl

/-- C7 (amended): an exception while extracting a page's records is
swallowed, after which the `finally` clause consults the most recently
bound listing count: if that (stale) count is a full page, the offset
advances by `MAX_RESULTS` and the NEXT page is fetched — the failed
page is never re-fetched and contributes no records; if no page was
ever bound, evaluating `len(listings)` raises a `NameError` instead. -/

theorem scrape_jobs_extraction_failure (remote : Nat → Except Unit (List Listing))
    (domain : String) (fuel s : Nat) (pl : List Listing)
    (herr : remote s = Except.error ())
    (hfull : ¬pl.length < MAX_RESULTS) :
    scrapeJobsLoop remote domain (fuel + 1) s (some pl) =
        (scrapeJobsLoop remote domain fuel (s + MAX_RESULTS) (some pl)).map
          (fun run => ⟨run.links, s :: run.offsets, run.outcome⟩) ∧
      scrapeJobsLoop remote domain (fuel + 1) s none =
        some ⟨[], [s], LoopOutcome.nameError⟩ := by
  constructor
  · simp only [scrapeJobsLoop, herr]
    rw [if_neg hfull]
  · simp only [scrapeJobsLoop, herr]

/-- Witness for C7's amended statement: a remote whose page always
fails to parse, after a previously bound full page — the loop advances
the offset; with nothing previously bound it dies with `NameError`. -/

theorem scrape_jobs_extraction_failure_witness :
    (scrapeJobsLoop (fun _ => Except.error ()) "d" (0 + 1) 9
          (some (List.replicate 100 ⟨true, "/x"⟩)) =
        (scrapeJobsLoop (fun _ => Except.error ()) "d" 0 (9 + MAX_RESULTS)
            (some (List.replicate 100 ⟨true, "/x"⟩))).map
          (fun run => ⟨run.links, 9 :: run.offsets, run.outcome⟩)) ∧
      scrapeJobsLoop (fun _ => Except.error ()) "d" (0 + 1) 9 none =
        some ⟨[], [9], LoopOutcome.nameError⟩ :=
  scrape_jobs_extraction_failure (fun _ => Except.error ()) "d" 0 9
    (List.replicate 100 ⟨true, "/x"⟩) rfl (by decide)

end ClScraper
